import Mathlib

/-!
Verification of the python-badgekit-api-client repository.

This file shallowly embeds the request-signing and path-construction core of
the client (src/badgekit/api.py and src/badgekit/jwt_auth.py) into Lean and
proves the frozen claims about it.

Conventions of the embedding:
- Python values that flow through keyword-argument dicts and decoded JSON are
  modelled by the inductive type PyVal.
- Python dicts are modelled as association lists in insertion order; dict
  assignment updates an existing key in place and appends a fresh key at the
  end, matching CPython semantics.
- A Python-level exception that the repository code does not catch (for
  example the TypeError raised by posixpath.join applied to zero arguments)
  is modelled by Option.none in the result of the embedded function.
- External library functions whose output values the claims do not depend on
  (hashlib sha256 hexdigest, jws encode and sign) are taken as parameters of
  the embedded definitions; stdlib functions whose concrete behaviour the
  claims do depend on (posixpath.join, urllib quote_plus and urlencode,
  distutils StrictVersion) are modelled concretely.
-/

/-- A Python value as it appears in keyword arguments and decoded JSON. -/
inductive PyVal : Type where
  | none : PyVal
  | bool (b : Bool) : PyVal
  | str (s : String) : PyVal
  | int (n : Int) : PyVal
  | dict (entries : List (String × PyVal)) : PyVal
  | list (xs : List PyVal) : PyVal

/-- Python truthiness for PyVal: None, False, empty string, zero and empty
containers are falsy, everything else is truthy. -/
def PyVal.truthy : PyVal → Bool
  | .none => false
  | .bool b => b
  | .str s => s ≠ ""
  | .int n => n ≠ 0
  | .dict d => !d.isEmpty
  | .list xs => !xs.isEmpty

/-- Python dict assignment d[k] = v on an association list: replace the value
at an existing key in place, append a fresh key at the end. -/
def dictSet {α : Type} : List (String × α) → String → α →
    List (String × α)
  | [], k, v => [(k, v)]
  | p :: tl, k, v => if p.1 = k then (k, v) :: tl else p :: dictSet tl k v

/-- Python dict(d, **k): a copy of d updated with every entry of k. -/
def dictMerge {α : Type} (d k : List (String × α)) : List (String × α) :=
  k.foldl (fun acc p => dictSet acc p.1 p.2) d

/-- Python kwargs.get(k): the value stored at k, or None when the key is
absent (an explicitly stored None is indistinguishable from absence). -/
def pyGet (kw : List (String × PyVal)) (k : String) : PyVal :=
  (kw.lookup k).getD PyVal.none

/-- The fixed hierarchy order of path segments (api.py, _path_order). -/
def _path_order : List String :=
  ["system", "issuer", "program", "badge", "instance", "application",
   "evidence", "comment", "code"]

/-- The possible query parameters (api.py, _possible_query_params). -/
def _possible_query_params : List String := ["archived"]

/-- Pluralization of API nouns (api.py, _api_plural). -/
def _api_plural (noun : String) : String :=
  if noun ∉ ["evidence", "claim", "codes/random"] then noun ++ "s" else noun

/-- True when the first character of s is a slash (Python s.startswith sep). -/
def startsSlash (s : String) : Bool := s.data.head? = some '/'

/-- True when the last character of s is a slash (Python s.endswith sep). -/
def endsSlash (s : String) : Bool := s.data.getLast? = some '/'

/-- One step of the loop inside posixpath.join. -/
def joinStep (path b : String) : String :=
  if startsSlash b then b
  else if path = "" || endsSlash path then path ++ b
  else path ++ "/" ++ b

/-- posixpath.join(*parts). Applying it to zero components raises a
TypeError in Python, modelled by Option.none. -/
def posixJoin : List String → Option String
  | [] => Option.none
  | a :: rest => some (rest.foldl joinStep a)

/-- The hierarchy-segment part of the loop in _make_path, specialised to a
list of fields: for each field in order, skip a None value, extend the parts
with the pluralized field name and the value when it is a string, and crash
(Option.none, a Python TypeError inside posixpath.join) on any other value. -/
def segmentPartsAux (kw : List (String × PyVal)) :
    List String → Option (List String)
  | [] => some []
  | f :: fs =>
    match pyGet kw f with
    | PyVal.none => segmentPartsAux kw fs
    | PyVal.str s => (segmentPartsAux kw fs).map
        (fun rest => _api_plural f :: s :: rest)
    | _ => Option.none

/-- The (pluralized-name, slug) components contributed by the hierarchy
segments, in the fixed order of _path_order. -/
def segmentParts (kw : List (String × PyVal)) : Option (List String) :=
  segmentPartsAux kw _path_order

/-- UTF-8 encoding of one character, as byte values. -/
def utf8Bytes (c : Char) : List Nat :=
  let n := c.toNat
  if n < 0x80 then [n]
  else if n < 0x800 then [0xC0 + n / 0x40, 0x80 + n % 0x40]
  else if n < 0x10000 then
    [0xE0 + n / 0x1000, 0x80 + (n / 0x40) % 0x40, 0x80 + n % 0x40]
  else
    [0xF0 + n / 0x40000, 0x80 + (n / 0x1000) % 0x40,
     0x80 + (n / 0x40) % 0x40, 0x80 + n % 0x40]

/-- One uppercase hexadecimal digit. -/
def hexDigit (n : Nat) : Char :=
  if n < 10 then Char.ofNat (48 + n) else Char.ofNat (55 + n)

/-- The rendering of one byte under urllib quote_plus: unreserved bytes pass
through, a space becomes a plus, every other byte is percent-encoded. -/
def quotePlusByte (b : Nat) : List Char :=
  if (65 ≤ b ∧ b ≤ 90) ∨ (97 ≤ b ∧ b ≤ 122) ∨ (48 ≤ b ∧ b ≤ 57) ∨
      b = 95 ∨ b = 46 ∨ b = 45 ∨ b = 126 then
    [Char.ofNat b]
  else if b = 32 then ['+']
  else ['%', hexDigit (b / 16), hexDigit (b % 16)]

/-- urllib quote_plus over the UTF-8 bytes of a string. -/
def quotePlus (s : String) : String :=
  ⟨(s.data.flatMap utf8Bytes).flatMap quotePlusByte⟩

/-- The string a query-parameter value contributes under urlencode: booleans
were already coerced to the literals true and false by _make_path, strings
pass through, integers via str. Exotic values are outside the model. -/
def queryVal : PyVal → Option String
  | PyVal.bool true => some "true"
  | PyVal.bool false => some "false"
  | PyVal.str s => some s
  | PyVal.int n => some (toString n)
  | _ => Option.none

/-- The path part of _make_path, before the query string: hierarchy-segment
components in fixed order, then the extra positional segments, joined by
posixpath.join. -/
def basePath (args : List String) (kw : List (String × PyVal)) :
    Option String :=
  (segmentParts kw).bind (fun segs => posixJoin (segs ++ args))

/-- api.py _make_path(*args, **kwargs): build the slash-joined path from the
hierarchy segments in fixed order plus the extra args, then append the
urlencoded query parameters after a question mark when any are present. -/
def _make_path (args : List String) (kw : List (String × PyVal)) :
    Option String :=
  (basePath args kw).bind (fun path =>
    match pyGet kw "archived" with
    | PyVal.none => some path
    | v => (queryVal v).map
        (fun s => path ++ "?" ++ quotePlus "archived" ++ "=" ++ quotePlus s))

/-- The concatenation of path components separated by single slashes (the
path shape the specification describes). -/
def slashJoin : List String → String
  | [] => ""
  | [a] => a
  | a :: b :: rest => a ++ "/" ++ slashJoin (b :: rest)

/-- The (pluralized-name, slug) pairs of the segments present in kw, in the
fixed hierarchy order, flattened. -/
def hierarchyPairs (kw : List (String × PyVal)) : List String :=
  _path_order.flatMap (fun f =>
    match pyGet kw f with
    | PyVal.str s => [_api_plural f, s]
    | _ => [])

/-!
Embedding of src/badgekit/jwt_auth.py.

The outgoing HTTP request is modelled with the fields the signer reads and
writes. The external jws library (encode, sign) and hashlib sha256 hexdigest
are parameters: the claims are about how their outputs are used, not about
their values.
-/

/-- The outgoing HTTP request as seen by the signer. -/
structure Request where
  method : String
  url : String
  body : List Nat
  headers : List (String × String)

/-- A registered claim generator: either a constant value or a callable of
the pending request (jwt_auth.py, add_field). -/
inductive Gen : Type where
  | const (v : PyVal) : Gen
  | fn (f : Request → PyVal) : Gen

/-- Evaluate a generator against a request: call it when callable, use it as
a constant otherwise (the callable test inside JWTAuth._generate). -/
def evalGen : Gen → Request → PyVal
  | .const v, _ => v
  | .fn f, req => f req

/-- jwt_auth.py payload_body: on POST and PUT, a dict with the hex digest of
the raw request body and the algorithm tag sha256; None otherwise. The
sha256 hex digest function of hashlib is a parameter. -/
def payload_body (sha256hex : List Nat → String) (req : Request) : PyVal :=
  if req.method = "POST" ∨ req.method = "PUT" then
    PyVal.dict [("hash", PyVal.str (sha256hex req.body)),
                ("alg", PyVal.str "sha256")]
  else
    PyVal.none

/-- jwt_auth.py JWTAuth._generate: evaluate every registered generator
against the request and keep exactly the truthy results, building the
payload dict in registration order. -/
def JWTAuth_generate (gens : List (String × Gen)) (req : Request) :
    List (String × PyVal) :=
  gens.foldl (fun payload fg =>
    let value := evalGen fg.2 req
    if value.truthy then dictSet payload fg.1 value else payload) []

/-- The fixed JWT header dict built inside to_jwt. -/
def jwtHeader (algo : String) : PyVal :=
  PyVal.dict [("typ", PyVal.str "JWT"), ("alg", PyVal.str algo)]

/-- Python str.join with a separator. -/
def strJoin (sep : String) : List String → String
  | [] => ""
  | [a] => a
  | a :: b :: rest => a ++ sep ++ strJoin sep (b :: rest)

/-- jwt_auth.py to_jwt: the dot-join of the encoded header, the encoded
claim set and the signature over them, with the jws library encode and sign
functions as parameters. -/
def to_jwt (encode : PyVal → String)
    (sign : PyVal → PyVal → String → String)
    (claim : PyVal) (algo : String) (key : String) : String :=
  strJoin "." [encode (jwtHeader algo), encode claim,
               sign (jwtHeader algo) claim key]

/-- jwt_auth.py JWTAuth.__call__: generate the payload, build the token and
store the authorization header on the request. -/
def JWTAuth_call (encode : PyVal → String)
    (sign : PyVal → PyVal → String → String)
    (secret : String) (alg : String) (gens : List (String × Gen))
    (req : Request) : Request :=
  let payload := PyVal.dict (JWTAuth_generate gens req)
  let token := to_jwt encode sign payload alg secret
  { req with headers :=
      dictSet req.headers "Authorization" ("JWT token=\"" ++ token ++ "\"") }

/-!
Embedding of the response-handling part of src/badgekit/api.py: the error
classifier raise_error, the status checks of list, get and create, ping, and
the version comparison of require_server_version (with a concrete model of
distutils StrictVersion).
-/

/-- The method and URL of the originating request, kept for diagnostics. -/
structure RequestInfo where
  method : String
  url : String

/-- The exceptions the embedded code raises. apiProblem is the generic
APIError built inside raise_error from the method, the URL and the decoded
body; invalidJSON is the APIError raised by _json_loads. -/
inductive BKError : Type where
  | apiProblem (method url : String) (body : PyVal) : BKError
  | invalidJSON : BKError
  | resourceNotFound (info : PyVal) (req : RequestInfo) : BKError
  | resourceConflict (info : PyVal) (req : RequestInfo) : BKError
  | validationError (info : PyVal) (req : RequestInfo) : BKError

/-- Exceptions that can escape the embedded functions: BadgeKit exceptions
plus uncaught Python-level lookup and value errors. -/
inductive PyExc : Type where
  | bk (e : BKError) : PyExc
  | keyError (k : String) : PyExc
  | typeError : PyExc
  | valueError (msg : String) : PyExc

/-- Python subscription obj[k] for a string key: the stored value in a dict,
a KeyError for a missing key, a TypeError on a non-dict. -/
def getItem : PyVal → String → Except PyExc PyVal
  | PyVal.dict d, k =>
    match d.lookup k with
    | some v => Except.ok v
    | Option.none => Except.error (PyExc.keyError k)
  | _, _ => Except.error PyExc.typeError

/-- The errors table of api.py, keyed by the code field of the response. -/
def errorsTable (code : String)
    (info : PyVal) (req : RequestInfo) : Option BKError :=
  if code = "ResourceNotFound" then some (BKError.resourceNotFound info req)
  else if code = "ResourceConflict" then
    some (BKError.resourceConflict info req)
  else if code = "ValidationError" then
    some (BKError.validationError info req)
  else Option.none

/-- api.py raise_error: look the code field up in the errors table and check
that a message field is present; any failure inside that try block (missing
or unhashable code, unrecognized code, missing message, non-dict body) falls
back to a generic APIError naming the method, the URL and the raw body. -/
def raise_error (resp_obj : PyVal) (req : RequestInfo) : BKError :=
  match getItem resp_obj "code", getItem resp_obj "message" with
  | Except.ok (PyVal.str c), Except.ok _ =>
    match errorsTable c resp_obj req with
    | some e => e
    | Option.none => BKError.apiProblem req.method req.url resp_obj
  | _, _ => BKError.apiProblem req.method req.url resp_obj

/-- The shared response handling of list, get and create: decode the body
(a failed decode is the APIError of _json_loads), then compare the status
code against the expected one and classify a mismatch through raise_error,
else return the decoded body. -/
def handleResponse (expected status : Nat) (decoded : Option PyVal)
    (req : RequestInfo) : Except BKError PyVal :=
  match decoded with
  | Option.none => Except.error BKError.invalidJSON
  | some obj =>
    if status ≠ expected then Except.error (raise_error obj req)
    else Except.ok obj

/-- BadgeKitAPI.list response handling: status 200 expected. -/
def listResponse (status : Nat) (decoded : Option PyVal)
    (req : RequestInfo) : Except BKError PyVal :=
  handleResponse 200 status decoded req

/-- BadgeKitAPI.get response handling: status 200 expected. -/
def getResponse (status : Nat) (decoded : Option PyVal)
    (req : RequestInfo) : Except BKError PyVal :=
  handleResponse 200 status decoded req

/-- BadgeKitAPI.create response handling: status 201 expected. -/
def createResponse (status : Nat) (decoded : Option PyVal)
    (req : RequestInfo) : Except BKError PyVal :=
  handleResponse 201 status decoded req

/-- The path BadgeKitAPI.get builds: _make_path with no extra segments over
the client defaults updated with the call keyword arguments. -/
def getPath (defaults kwargs : List (String × PyVal)) : Option String :=
  _make_path [] (dictMerge defaults kwargs)

/-- The path BadgeKitAPI.list builds: _make_path with the pluralized kind as
the extra segment over the merged arguments. -/
def listPath (kind : String) (defaults kwargs : List (String × PyVal)) :
    Option String :=
  _make_path [_api_plural kind] (dictMerge defaults kwargs)

/-- The outcome of the HTTP round trip inside ping: either a response with a
status code and a decoded body (Option.none for a body that is not JSON), or
a connection error. -/
inductive HttpOutcome : Type where
  | response (status : Nat) (decoded : Option PyVal) : HttpOutcome
  | connectionError : HttpOutcome

/-- Python equality of a PyVal against a string literal. -/
def pyEqStr : PyVal → String → Bool
  | PyVal.str s, t => s == t
  | _, _ => false

/-- BadgeKitAPI.ping: False on a connection error; otherwise decode the body
(invalid JSON raises), and return the conjunction of the status test and the
app-field test, where the app field is only read when the status is 200. -/
def ping (out : HttpOutcome) : Except PyExc Bool :=
  match out with
  | HttpOutcome.connectionError => Except.ok false
  | HttpOutcome.response _ Option.none =>
    Except.error (PyExc.bk BKError.invalidJSON)
  | HttpOutcome.response status (some obj) =>
    if status = 200 then
      match getItem obj "app" with
      | Except.ok v => Except.ok (pyEqStr v "BadgeKit API")
      | Except.error e => Except.error e
    else Except.ok false

/-- A parsed distutils StrictVersion: three numeric components and an
optional prerelease of a letter a or b with a number. -/
structure SVer : Type where
  major : Nat
  minor : Nat
  patch : Nat
  pre : Option (Char × Nat)
deriving DecidableEq

/-- Split a character list into its leading digits and the rest. -/
def spanDigits (cs : List Char) : List Char × List Char :=
  (cs.takeWhile Char.isDigit, cs.dropWhile Char.isDigit)

/-- The number denoted by a digit run. -/
def digitsToNat (ds : List Char) : Nat :=
  ds.foldl (fun n c => n * 10 + (c.toNat - 48)) 0

/-- Parse the optional prerelease suffix of a StrictVersion (a letter a or b
followed by digits, anchored at the end of the string). -/
def parsePre (cs : List Char) : Option (Option (Char × Nat)) :=
  match cs with
  | [] => some Option.none
  | c :: rest =>
    if c = 'a' ∨ c = 'b' then
      let dr := spanDigits rest
      if dr.1.isEmpty || !dr.2.isEmpty then Option.none
      else some (some (c, digitsToNat dr.1))
    else Option.none

/-- Parse a distutils StrictVersion: anchored digits, a dot, digits, an
optional dot with digits (defaulting the patch to zero), and an optional
prerelease; anything else raises a ValueError, modelled by Option.none. -/
def parseSV (s : String) : Option SVer :=
  let d1 := spanDigits s.data
  if d1.1.isEmpty then Option.none else
  match d1.2 with
  | '.' :: r2 =>
    let d2 := spanDigits r2
    if d2.1.isEmpty then Option.none else
    match d2.2 with
    | '.' :: r4 =>
      let d3 := spanDigits r4
      if d3.1.isEmpty then Option.none else
      (parsePre d3.2).map (fun pre =>
        ⟨digitsToNat d1.1, digitsToNat d2.1, digitsToNat d3.1, pre⟩)
    | r3 =>
      (parsePre r3).map (fun pre =>
        ⟨digitsToNat d1.1, digitsToNat d2.1, 0, pre⟩)
  | _ => Option.none

/-- Strict comparison of the numeric version triples, lexicographically. -/
def tripleLt (a b : SVer) : Bool :=
  decide (a.major < b.major) ||
  (decide (a.major = b.major) &&
    (decide (a.minor < b.minor) ||
      (decide (a.minor = b.minor) && decide (a.patch < b.patch))))

/-- StrictVersion ordering: numeric triples first; on equal triples a
prerelease sorts before no prerelease, and two prereleases compare by letter
then number. -/
def svLt (a b : SVer) : Bool :=
  if a.major = b.major ∧ a.minor = b.minor ∧ a.patch = b.patch then
    match a.pre, b.pre with
    | Option.none, Option.none => false
    | some _, Option.none => true
    | Option.none, some _ => false
    | some p, some q =>
      decide (p.1.toNat < q.1.toNat) ||
      (decide (p.1 = q.1) && decide (p.2 < q.2))
  else tripleLt a b

/-- BadgeKitAPI.require_server_version: parse the server version then the
required version with StrictVersion (a parse failure raises ValueError), and
raise a ValueError naming the versions and the server URL when the server
version is strictly older. -/
def require_server_version (baseurl server required : String) :
    Except PyExc Unit :=
  match parseSV server with
  | Option.none =>
    Except.error (PyExc.valueError
      ("invalid version number \x27" ++ server ++ "\x27"))
  | some sv =>
    match parseSV required with
    | Option.none =>
      Except.error (PyExc.valueError
        ("invalid version number \x27" ++ required ++ "\x27"))
    | some rv =>
      if svLt sv rv then
        Except.error (PyExc.valueError
          ("Version " ++ required ++ " or greater of BadgeKit-API server "
            ++ "required, but " ++ baseurl ++ " is only version "
            ++ server ++ "."))
      else Except.ok ()

/-- True when an embedded operation signalled a failure. -/
def raisesError {α : Type} : Except PyExc α → Bool
  | Except.error _ => true
  | Except.ok _ => false

/-- The slug-shaped values condition: every stored value of kw is a string
that is nonempty and slash-free. -/
def slugValues (kw : List (String × PyVal)) : Prop :=
  ∀ p ∈ kw, ∃ s, p.2 = PyVal.str s ∧ s.data ≠ [] ∧ '/' ∉ s.data

/-- The contribution of one registered generator to the evaluated claim
set: the evaluated value when truthy, nothing otherwise. -/
def evalKeep (req : Request) (fg : String × Gen) : Option (String × PyVal) :=
  let v := evalGen fg.2 req
  if v.truthy then some (fg.1, v) else Option.none

/-!
Association-list lemmas used throughout the proofs.
-/

theorem lookup_eq_some_iff_mem {β : Type} {l : List (String × β)}
    (hn : (l.map Prod.fst).Nodup) {k : String} {v : β} :
    l.lookup k = some v ↔ (k, v) ∈ l := by
  induction l with
  | nil => simp [List.lookup]
  | cons p tl ih =>
    obtain ⟨a, b⟩ := p
    simp only [List.map_cons, List.nodup_cons] at hn
    by_cases hk : k = a
    · subst hk
      simp only [List.lookup, beq_self_eq_true, List.mem_cons]
      constructor
      · intro h
        left
        cases h
        rfl
      · intro h
        rcases h with h | h
        · cases h
          rfl
        · exact absurd (List.mem_map_of_mem Prod.fst h) hn.1
    · have hbeq : (k == a) = false := beq_eq_false_iff_ne.mpr hk
      simp only [List.lookup, hbeq, List.mem_cons]
      rw [ih hn.2]
      constructor
      · intro h
        right
        exact h
      · intro h
        rcases h with h | h
        · cases h
          exact absurd rfl hk
        · exact h

theorem lookup_eq_none_iff {β : Type} {l : List (String × β)} {k : String} :
    l.lookup k = Option.none ↔ k ∉ l.map Prod.fst := by
  induction l with
  | nil => simp [List.lookup]
  | cons p tl ih =>
    obtain ⟨a, b⟩ := p
    by_cases hk : k = a
    · subst hk
      simp [List.lookup]
    · have hbeq : (k == a) = false := beq_eq_false_iff_ne.mpr hk
      simp [List.lookup, hbeq, ih, hk]

theorem lookup_perm {β : Type} {l l' : List (String × β)}
    (hp : l.Perm l') (hn : (l.map Prod.fst).Nodup) (k : String) :
    l.lookup k = l'.lookup k := by
  have hn' : (l'.map Prod.fst).Nodup := ((hp.map Prod.fst).nodup_iff).mp hn
  cases h : l'.lookup k with
  | none =>
    rw [lookup_eq_none_iff] at h ⊢
    intro hmem
    exact h (((hp.map Prod.fst).mem_iff).mp hmem)
  | some v =>
    rw [lookup_eq_some_iff_mem hn'] at h
    exact (lookup_eq_some_iff_mem hn).mpr (hp.mem_iff.mpr h)

theorem mem_unique_of_nodup_keys {β : Type} {l : List (String × β)}
    (hn : (l.map Prod.fst).Nodup) {k : String} {a b : β}
    (ha : (k, a) ∈ l) (hb : (k, b) ∈ l) : a = b := by
  induction l with
  | nil => cases ha
  | cons p tl ih =>
    obtain ⟨x, y⟩ := p
    simp only [List.map_cons, List.nodup_cons] at hn
    rcases List.mem_cons.mp ha with h1 | h1 <;>
      rcases List.mem_cons.mp hb with h2 | h2
    · injection h1 with hx1 hy1
      injection h2 with hx2 hy2
      rw [hy1, hy2]
    · injection h1 with hx1 hy1
      exfalso
      apply hn.1
      rw [← hx1]
      exact List.mem_map_of_mem Prod.fst h2
    · injection h2 with hx2 hy2
      exfalso
      apply hn.1
      rw [← hx2]
      exact List.mem_map_of_mem Prod.fst h1
    · exact ih hn.2 h1 h2

theorem dictSet_eq_append {β : Type} {d : List (String × β)} {k : String}
    (v : β) (hk : k ∉ d.map Prod.fst) : dictSet d k v = d ++ [(k, v)] := by
  induction d with
  | nil => rfl
  | cons p tl ih =>
    simp only [List.map_cons, List.mem_cons, not_or] at hk
    have hne : p.1 ≠ k := fun h => hk.1 h.symm
    simp only [dictSet, hne, if_false, List.cons_append]
    rw [ih hk.2]

theorem lookup_dictSet_self {β : Type} (d : List (String × β)) (k : String)
    (v : β) : (dictSet d k v).lookup k = some v := by
  induction d with
  | nil => simp [dictSet, List.lookup]
  | cons p tl ih =>
    by_cases h : p.1 = k
    · simp [dictSet, h, List.lookup]
    · have hbeq : (k == p.1) = false :=
        beq_eq_false_iff_ne.mpr (fun hh => h hh.symm)
      simp only [dictSet, h, if_false, List.lookup, hbeq]
      exact ih

theorem lookup_dictSet_ne {β : Type} (d : List (String × β)) {k k' : String}
    (v : β) (hne : k' ≠ k) : (dictSet d k v).lookup k' = d.lookup k' := by
  induction d with
  | nil =>
    have hbeq : (k' == k) = false := beq_eq_false_iff_ne.mpr hne
    simp [dictSet, List.lookup, hbeq]
  | cons p tl ih =>
    by_cases h : p.1 = k
    · have hbeq : (k' == k) = false := beq_eq_false_iff_ne.mpr hne
      have hbeq' : (k' == p.1) = false :=
        beq_eq_false_iff_ne.mpr (fun hh => hne (hh.trans h))
      simp [dictSet, h, List.lookup, hbeq, hbeq']
    · by_cases hkp : k' = p.1
      · simp [dictSet, h, List.lookup, hkp]
      · have hbeq' : (k' == p.1) = false := beq_eq_false_iff_ne.mpr hkp
        simp only [dictSet, h, if_false, List.lookup, hbeq']
        exact ih

/-!
Lemmas connecting posixpath.join to the plain slash-separated concatenation
described by the specification, for components that are nonempty and free of
slashes (pluralized segment names and slugs).
-/

theorem getLast?_mem_of_eq {l : List Char} {c : Char}
    (h : l.getLast? = some c) : c ∈ l := by
  induction l with
  | nil => cases h
  | cons a tl ih =>
    cases tl with
    | nil =>
      simp only [List.getLast?_singleton, Option.some.injEq] at h
      simp [h]
    | cons b tl2 =>
      rw [List.getLast?_cons_cons] at h
      exact List.mem_cons_of_mem a (ih h)

theorem head?_mem_of_eq {l : List Char} {c : Char}
    (h : l.head? = some c) : c ∈ l := by
  cases l with
  | nil => cases h
  | cons a tl =>
    simp only [List.head?_cons, Option.some.injEq] at h
    simp [h]

/-- A component with no slash in it does not start with a slash. -/
theorem startsSlash_eq_false {s : String} (h : '/' ∉ s.data) :
    startsSlash s = false := by
  unfold startsSlash
  cases hh : s.data.head? with
  | none => simp
  | some c =>
    simp only [decide_eq_false_iff_not, Option.some.injEq]
    intro hc
    exact h (hc ▸ head?_mem_of_eq hh)

/-- A component with no slash in it does not end with a slash. -/
theorem endsSlash_eq_false {s : String} (h : '/' ∉ s.data) :
    endsSlash s = false := by
  unfold endsSlash
  cases hh : s.data.getLast? with
  | none => simp
  | some c =>
    simp only [decide_eq_false_iff_not, Option.some.injEq]
    intro hc
    exact h (hc ▸ getLast?_mem_of_eq hh)

theorem ne_empty_of_data_ne {s : String} (h : s.data ≠ []) : s ≠ "" := by
  intro hs
  apply h
  rw [hs]

theorem append_slash_data (p b : String) :
    (p ++ "/" ++ b).data = p.data ++ '/' :: b.data := by
  rw [String.data_append, String.data_append, List.append_assoc]
  rfl

/-- Appending a slash and a slash-free nonempty component keeps the string
nonempty and not slash-terminated. -/
theorem endsSlash_append_slash {p b : String} (hb : b.data ≠ [])
    (hbs : '/' ∉ b.data) : endsSlash (p ++ "/" ++ b) = false := by
  unfold endsSlash
  rw [append_slash_data, List.getLast?_append]
  have hcons : ('/' :: b.data).getLast? = b.data.getLast? := by
    cases hd : b.data with
    | nil => exact absurd hd hb
    | cons x xs => rw [List.getLast?_cons_cons]
  rw [hcons]
  cases hh : b.data.getLast? with
  | none => exact absurd (List.getLast?_eq_none_iff.mp hh) hb
  | some c =>
    have hc : c ≠ '/' := fun hceq => hbs (hceq ▸ getLast?_mem_of_eq hh)
    simp [Option.or, hc]

theorem append_slash_ne_empty (p b : String) : p ++ "/" ++ b ≠ "" := by
  apply ne_empty_of_data_ne
  rw [append_slash_data]
  simp

/-- One join step on a good accumulator and a good component is a plain
slash-separated append. -/
theorem joinStep_eq {p b : String} (hp : p ≠ "") (hpe : endsSlash p = false)
    (hbs : startsSlash b = false) : joinStep p b = p ++ "/" ++ b := by
  unfold joinStep
  rw [hbs, hpe]
  simp [hp]

theorem slashJoin_shift (a b : String) (rest : List String) :
    slashJoin ((a ++ "/" ++ b) :: rest) = a ++ "/" ++ slashJoin (b :: rest) := by
  cases rest with
  | nil => rfl
  | cons c tl =>
    show (a ++ "/" ++ b) ++ "/" ++ slashJoin (c :: tl) =
      a ++ "/" ++ (b ++ "/" ++ slashJoin (c :: tl))
    simp [String.append_assoc]

/-- Folding the posixpath.join step over good components produces the plain
slash-separated concatenation. -/
theorem foldl_joinStep_eq (rest : List String) :
    ∀ p, p ≠ "" → endsSlash p = false →
    (∀ b ∈ rest, b.data ≠ [] ∧ '/' ∉ b.data) →
    rest.foldl joinStep p = slashJoin (p :: rest) := by
  induction rest with
  | nil => intro p _ _ _; rfl
  | cons b tl ih =>
    intro p hp hpe hgood
    obtain ⟨hb, hbs⟩ := hgood b (List.mem_cons_self _ _)
    have h1 : p ++ "/" ++ b ≠ "" := append_slash_ne_empty p b
    have h2 : endsSlash (p ++ "/" ++ b) = false :=
      endsSlash_append_slash hb hbs
    rw [List.foldl_cons, joinStep_eq hp hpe (startsSlash_eq_false hbs)]
    rw [ih (p ++ "/" ++ b) h1 h2
      (fun c hc => hgood c (List.mem_cons_of_mem _ hc))]
    rw [slashJoin_shift]
    rfl

/-- posixpath.join on a nonempty list of nonempty slash-free components is
the slash-separated concatenation. -/
theorem posixJoin_eq_slashJoin {parts : List String} (hne : parts ≠ [])
    (hgood : ∀ b ∈ parts, b.data ≠ [] ∧ '/' ∉ b.data) :
    posixJoin parts = some (slashJoin parts) := by
  cases parts with
  | nil => exact absurd rfl hne
  | cons a rest =>
    obtain ⟨ha, has⟩ := hgood a (List.mem_cons_self _ _)
    rw [show posixJoin (a :: rest) = some (rest.foldl joinStep a) from rfl]
    rw [foldl_joinStep_eq rest a (ne_empty_of_data_ne ha)
      (endsSlash_eq_false has)
      (fun c hc => hgood c (List.mem_cons_of_mem _ hc))]

/-!
Bridging lemmas for the path builder, and claim C1.
-/

theorem lookup_mem {β : Type} {l : List (String × β)} {k : String} {v : β}
    (h : l.lookup k = some v) : (k, v) ∈ l := by
  induction l with
  | nil => cases h
  | cons p tl ih =>
    obtain ⟨a, b⟩ := p
    by_cases hk : k = a
    · subst hk
      simp only [List.lookup, beq_self_eq_true] at h
      cases h
      exact List.mem_cons_self _ _
    · have hbeq : (k == a) = false := beq_eq_false_iff_ne.mpr hk
      simp only [List.lookup, hbeq] at h
      exact List.mem_cons_of_mem _ (ih h)

theorem pyGet_shape_of_slugValues {kw : List (String × PyVal)}
    (h : slugValues kw) (f : String) :
    pyGet kw f = PyVal.none ∨ ∃ s, pyGet kw f = PyVal.str s := by
  unfold pyGet
  cases hl : kw.lookup f with
  | none => left; rfl
  | some v =>
    obtain ⟨s, hs, _, _⟩ := h (f, v) (lookup_mem hl)
    right
    exact ⟨s, by rw [Option.getD_some]; exact hs⟩

theorem segmentPartsAux_eq_flatMap {kw : List (String × PyVal)}
    (h : ∀ f, pyGet kw f = PyVal.none ∨ ∃ s, pyGet kw f = PyVal.str s) :
    ∀ fields : List String, segmentPartsAux kw fields =
      some (fields.flatMap (fun f =>
        match pyGet kw f with
        | PyVal.str s => [_api_plural f, s]
        | _ => [])) := by
  intro fields
  induction fields with
  | nil => rfl
  | cons f fs ih =>
    rcases h f with hf | ⟨s, hf⟩
    · rw [List.flatMap_cons, show segmentPartsAux kw (f :: fs) =
        (match pyGet kw f with
        | PyVal.none => segmentPartsAux kw fs
        | PyVal.str s => (segmentPartsAux kw fs).map
            (fun rest => _api_plural f :: s :: rest)
        | _ => Option.none) from rfl]
      rw [hf, ih]
      rfl
    · rw [List.flatMap_cons, show segmentPartsAux kw (f :: fs) =
        (match pyGet kw f with
        | PyVal.none => segmentPartsAux kw fs
        | PyVal.str s => (segmentPartsAux kw fs).map
            (fun rest => _api_plural f :: s :: rest)
        | _ => Option.none) from rfl]
      rw [hf, ih]
      rfl

theorem segmentParts_eq_hierarchyPairs {kw : List (String × PyVal)}
    (h : slugValues kw) : segmentParts kw = some (hierarchyPairs kw) :=
  segmentPartsAux_eq_flatMap (pyGet_shape_of_slugValues h) _path_order

/-- Every pluralized hierarchy-segment name is nonempty and slash-free. -/
theorem plural_good : ∀ f ∈ _path_order,
    (_api_plural f).data ≠ [] ∧ '/' ∉ (_api_plural f).data := by
  decide

theorem hierarchyPairs_good {kw : List (String × PyVal)}
    (h : slugValues kw) :
    ∀ b ∈ hierarchyPairs kw, b.data ≠ [] ∧ '/' ∉ b.data := by
  intro b hb
  unfold hierarchyPairs at hb
  rw [List.mem_flatMap] at hb
  obtain ⟨f, hf, hbf⟩ := hb
  revert hbf
  cases hv : pyGet kw f with
  | str s =>
    intro hbf
    have hsv : (kw.lookup f).getD PyVal.none = PyVal.str s := hv
    have hmem : (f, PyVal.str s) ∈ kw := by
      cases hl : kw.lookup f with
      | none => rw [hl] at hsv; cases hsv
      | some v =>
        rw [hl, Option.getD_some] at hsv
        exact hsv ▸ lookup_mem hl
    obtain ⟨t, ht, htgood⟩ := h (f, PyVal.str s) hmem
    have hts : t = s := by
      cases ht
      rfl
    rcases List.mem_cons.mp hbf with hb1 | hb1
    · exact hb1 ▸ plural_good f hf
    · rcases List.mem_cons.mp hb1 with hb2 | hb2
      · exact hb2 ▸ (hts ▸ htgood)
      · cases hb2
  | none => intro hbf; cases hbf
  | bool c => intro hbf; cases hbf
  | int n => intro hbf; cases hbf
  | dict d => intro hbf; cases hbf
  | list xs => intro hbf; cases hbf

theorem hierarchyPairs_ne_nil {kw : List (String × PyVal)}
    (h : slugValues kw) (hn : (kw.map Prod.fst).Nodup)
    (hkeys : ∀ p ∈ kw, p.1 ∈ _path_order) (hne : kw ≠ []) :
    hierarchyPairs kw ≠ [] := by
  obtain ⟨p, hp⟩ := List.exists_mem_of_ne_nil kw hne
  obtain ⟨s, hs, _, _⟩ := h p hp
  have hl : kw.lookup p.1 = some p.2 :=
    (lookup_eq_some_iff_mem hn).mpr hp
  have hget : pyGet kw p.1 = PyVal.str s := by
    unfold pyGet
    rw [hl, Option.getD_some, hs]
  apply List.ne_nil_of_mem (a := _api_plural p.1)
  unfold hierarchyPairs
  rw [List.mem_flatMap]
  refine ⟨p.1, hkeys p hp, ?_⟩
  rw [hget]
  exact List.mem_cons_self _ _

/-- A key outside the stored keys reads as None. -/
theorem pyGet_eq_none_of_not_mem {kw : List (String × PyVal)} {k : String}
    (h : k ∉ kw.map Prod.fst) : pyGet kw k = PyVal.none := by
  unfold pyGet
  rw [lookup_eq_none_iff.mpr h]
  rfl

/-- The path builder reads its keyword arguments only through pyGet. -/
theorem make_path_congr {kw kw' : List (String × PyVal)}
    (h : ∀ k, pyGet kw k = pyGet kw' k) (args : List String) :
    _make_path args kw = _make_path args kw' := by
  have hseg : ∀ fields, segmentPartsAux kw fields = segmentPartsAux kw' fields := by
    intro fields
    induction fields with
    | nil => rfl
    | cons f fs ih =>
      show (match pyGet kw f with
        | PyVal.none => segmentPartsAux kw fs
        | PyVal.str s => (segmentPartsAux kw fs).map
            (fun rest => _api_plural f :: s :: rest)
        | _ => Option.none) =
        (match pyGet kw' f with
        | PyVal.none => segmentPartsAux kw' fs
        | PyVal.str s => (segmentPartsAux kw' fs).map
            (fun rest => _api_plural f :: s :: rest)
        | _ => Option.none)
      rw [← h f, ih]
  unfold _make_path basePath segmentParts
  rw [hseg _path_order, h "archived"]

theorem pyGet_perm {kw kw' : List (String × PyVal)} (hp : kw.Perm kw')
    (hn : (kw.map Prod.fst).Nodup) (k : String) :
    pyGet kw k = pyGet kw' k := by
  unfold pyGet
  rw [lookup_perm hp hn k]

/-- C1: for every sparse mapping of hierarchy-segment names to slug strings,
the path _make_path builds is the slash-separated concatenation of the
(pluralized-name, slug) pairs in the fixed hierarchy order; the result is
invariant under reordering of the supplied arguments; and in particular the
two orders of supplying program p and system s both build
systems/s/programs/p. -/
theorem c1_make_path_fixed_order :
    (∀ (args : List String) (kw kw' : List (String × PyVal)),
      (kw.map Prod.fst).Nodup → kw.Perm kw' →
      _make_path args kw = _make_path args kw') ∧
    (∀ kw : List (String × PyVal), slugValues kw →
      (∀ p ∈ kw, p.1 ∈ _path_order) → (kw.map Prod.fst).Nodup → kw ≠ [] →
      _make_path [] kw = some (slashJoin (hierarchyPairs kw))) ∧
    _make_path [] [("program", PyVal.str "p"), ("system", PyVal.str "s")] =
      some "systems/s/programs/p" ∧
    _make_path [] [("system", PyVal.str "s"), ("program", PyVal.str "p")] =
      some "systems/s/programs/p" := by
  refine ⟨?_, ?_, ?_, ?_⟩
  · intro args kw kw' hn hp
    exact make_path_congr (pyGet_perm hp hn) args
  · intro kw hslug hkeys hn hne
    have harch : pyGet kw "archived" = PyVal.none := by
      apply pyGet_eq_none_of_not_mem
      intro hmem
      rw [List.mem_map] at hmem
      obtain ⟨p, hp, hp1⟩ := hmem
      have hmem2 := hkeys p hp
      rw [hp1] at hmem2
      revert hmem2
      decide
    unfold _make_path basePath
    rw [segmentParts_eq_hierarchyPairs hslug, Option.some_bind,
      List.append_nil,
      posixJoin_eq_slashJoin (hierarchyPairs_ne_nil hslug hn hkeys hne)
        (hierarchyPairs_good hslug),
      Option.some_bind, harch]
  · rfl
  · rfl

theorem c1_make_path_fixed_order_witness :
    _make_path [] [("program", PyVal.str "p"), ("system", PyVal.str "s")] =
      _make_path [] [("system", PyVal.str "s"), ("program", PyVal.str "p")] ∧
    _make_path [] [("program", PyVal.str "p"), ("system", PyVal.str "s")] =
      some (slashJoin (hierarchyPairs
        [("program", PyVal.str "p"), ("system", PyVal.str "s")])) := by
  constructor
  · exact c1_make_path_fixed_order.1 [] _ _ (by decide)
      (List.Perm.swap _ _ _)
  · refine c1_make_path_fixed_order.2.1 _ ?_ (by decide) (by decide)
      (List.cons_ne_nil _ _)
    rintro p hp
    rcases List.mem_cons.mp hp with h | h
    · subst h
      exact ⟨"p", rfl, by decide, by decide⟩
    · rcases List.mem_cons.mp h with h2 | h2
      · subst h2
        exact ⟨"s", rfl, by decide, by decide⟩
      · cases h2

/-!
Claim C5: the code skips a segment only when its value is None; an
empty-string slug is not skipped.
-/

/-- C5 counterexample: supplying the empty string as the system slug is not
the same as omitting the system argument; the pluralized name systems is
still contributed to the path. -/
theorem c5_counterexample :
    _make_path [] [("system", PyVal.str ""), ("badge", PyVal.str "b")] =
      some "systems/badges/b" ∧
    _make_path [] [("system", PyVal.str ""), ("badge", PyVal.str "b")] ≠
      _make_path [] [("badge", PyVal.str "b")] := by
  constructor
  · rfl
  · decide

theorem pyGet_cons_none {kw : List (String × PyVal)} {f : String}
    (h : f ∉ kw.map Prod.fst) (k : String) :
    pyGet ((f, PyVal.none) :: kw) k = pyGet kw k := by
  unfold pyGet
  by_cases hk : k = f
  · subst hk
    simp only [List.lookup, beq_self_eq_true]
    rw [lookup_eq_none_iff.mpr h]
    rfl
  · have hbeq : (k == f) = false := beq_eq_false_iff_ne.mpr hk
    simp only [List.lookup, hbeq]

/-- C5 amended: a hierarchy-segment argument whose value is None is treated
exactly like an absent argument, contributing nothing to the path; an
empty-string slug however is not skipped: it still contributes its
pluralized segment name (posixpath.join then collapses the empty
component). -/
theorem c5_none_like_absent :
    (∀ (args : List String) (kw : List (String × PyVal)) (f : String),
      f ∉ kw.map Prod.fst →
      _make_path args ((f, PyVal.none) :: kw) = _make_path args kw) ∧
    _make_path [] [("system", PyVal.str ""), ("badge", PyVal.str "b")] =
      some "systems/badges/b" := by
  constructor
  · intro args kw f h
    exact make_path_congr (pyGet_cons_none h) args
  · rfl

theorem c5_none_like_absent_witness :
    _make_path [] [("system", PyVal.none), ("badge", PyVal.str "b")] =
      _make_path [] [("badge", PyVal.str "b")] :=
  c5_none_like_absent.1 [] [("badge", PyVal.str "b")] "system" (by decide)

/-- C6: pluralization appends the letter s except for exactly evidence,
claim and codes/random, which are returned unchanged; in particular
evidence stays evidence and badge becomes badges. -/
theorem c6_api_plural :
    (∀ noun : String,
      (_api_plural noun = noun ↔
        noun ∈ ["evidence", "claim", "codes/random"]) ∧
      (noun ∉ ["evidence", "claim", "codes/random"] →
        _api_plural noun = noun ++ "s")) ∧
    _api_plural "evidence" = "evidence" ∧ _api_plural "badge" = "badges" := by
  refine ⟨?_, rfl, rfl⟩
  intro noun
  by_cases h : noun ∈ ["evidence", "claim", "codes/random"]
  · constructor
    · rw [_api_plural, if_neg (not_not_intro h)]
      exact iff_of_true rfl h
    · intro hn
      exact absurd h hn
  · constructor
    · rw [_api_plural, if_pos h]
      constructor
      · intro heq
        exfalso
        have hlen := congrArg String.length heq
        rw [String.length_append, show "s".length = 1 from rfl] at hlen
        omega
      · intro hmem
        exact absurd hmem h
    · intro _
      rw [_api_plural, if_pos h]

theorem c6_api_plural_witness :
    _api_plural "badge" = "badge" ++ "s" ∧ ("badge" ∈
      ["evidence", "claim", "codes/random"] → False) :=
  ⟨(c6_api_plural.1 "badge").2 (by decide), by decide⟩

/-!
Claim C7: query-flag rendering, and claim C10: path construction with no
present hierarchy segment crashes at posixpath.join.
-/

theorem append_query_literal (path v : String) :
    path ++ "?" ++ quotePlus "archived" ++ "=" ++ v =
      path ++ ("?archived=" ++ v) := by
  rw [show quotePlus "archived" = "archived" from rfl]
  rw [String.append_assoc, String.append_assoc, String.append_assoc]
  congr 1

/-- C7: a query flag with value True renders as the literal string true and
False as the literal string false, url-encoded and appended after a
question mark; an absent flag produces no query string at all; in
particular the two archived examples of the specification hold. -/
theorem c7_query_flags :
    (∀ (args : List String) (kw : List (String × PyVal)) (b : Bool),
      pyGet kw "archived" = PyVal.bool b →
      _make_path args kw = (basePath args kw).map
        (fun path => path ++ ("?archived=" ++ (if b then "true" else "false")))) ∧
    (∀ (args : List String) (kw : List (String × PyVal)),
      pyGet kw "archived" = PyVal.none →
      _make_path args kw = basePath args kw) ∧
    _make_path ["badges"]
        [("system", PyVal.str "jkl"), ("archived", PyVal.bool true)] =
      some "systems/jkl/badges?archived=true" ∧
    _make_path ["badges"]
        [("system", PyVal.str "jkl"), ("archived", PyVal.bool false)] =
      some "systems/jkl/badges?archived=false" := by
  refine ⟨?_, ?_, rfl, rfl⟩
  · intro args kw b hb
    unfold _make_path
    simp only [hb]
    cases hbase : basePath args kw with
    | none => rfl
    | some path =>
      cases b
      · show some (path ++ "?" ++ quotePlus "archived" ++ "="
          ++ quotePlus "false") = some (path ++ ("?archived=" ++ "false"))
        rw [show quotePlus "false" = "false" from rfl, append_query_literal]
      · show some (path ++ "?" ++ quotePlus "archived" ++ "="
          ++ quotePlus "true") = some (path ++ ("?archived=" ++ "true"))
        rw [show quotePlus "true" = "true" from rfl, append_query_literal]
  · intro args kw h
    unfold _make_path
    simp only [h]
    cases basePath args kw with
    | none => rfl
    | some path => rfl

theorem c7_query_flags_witness :
    _make_path ["badges"]
        [("system", PyVal.str "jkl"), ("archived", PyVal.bool true)] =
      (basePath ["badges"] [("system", PyVal.str "jkl"),
        ("archived", PyVal.bool true)]).map
        (fun path => path ++ ("?archived=" ++ "true")) ∧
    _make_path ["badges"] [("system", PyVal.str "jkl")] =
      basePath ["badges"] [("system", PyVal.str "jkl")] :=
  ⟨c7_query_flags.1 ["badges"] _ true rfl,
   c7_query_flags.2.1 ["badges"] _ rfl⟩

theorem segmentPartsAux_all_none {kw : List (String × PyVal)} :
    ∀ fields : List String, (∀ f ∈ fields, pyGet kw f = PyVal.none) →
    segmentPartsAux kw fields = some [] := by
  intro fields
  induction fields with
  | nil => intro _; rfl
  | cons f fs ih =>
    intro h
    have hf := h f (List.mem_cons_self _ _)
    rw [show segmentPartsAux kw (f :: fs) =
      (match pyGet kw f with
      | PyVal.none => segmentPartsAux kw fs
      | PyVal.str s => (segmentPartsAux kw fs).map
          (fun rest => _api_plural f :: s :: rest)
      | _ => Option.none) from rfl, hf]
    exact ih (fun g hg => h g (List.mem_cons_of_mem _ hg))

/-- C10: when no hierarchy segment is present and no extra segment is
supplied, _make_path crashes inside posixpath.join (modelled by
Option.none) rather than returning a typed failure or an empty path; in
particular a get with empty defaults and only the archived flag, or with no
arguments at all, crashes this way. -/
theorem c10_empty_path_crash :
    (∀ kw : List (String × PyVal),
      (∀ f ∈ _path_order, pyGet kw f = PyVal.none) →
      _make_path [] kw = Option.none) ∧
    getPath [] [("archived", PyVal.bool true)] = Option.none ∧
    getPath [] [] = Option.none := by
  refine ⟨?_, rfl, rfl⟩
  intro kw h
  unfold _make_path basePath segmentParts
  rw [segmentPartsAux_all_none _path_order h]
  rfl

theorem c10_empty_path_crash_witness :
    _make_path [] [("archived", PyVal.bool true)] = Option.none :=
  c10_empty_path_crash.1 [("archived", PyVal.bool true)]
    (by intro f hf; fin_cases hf <;> rfl)

/-!
Claim C2: the evaluated claim set keeps exactly the truthy claims, and the
body claim appears exactly on POST and PUT.
-/

theorem generate_foldl_eq (req : Request) :
    ∀ (gens : List (String × Gen)) (acc : List (String × PyVal)),
    (∀ k ∈ gens.map Prod.fst, k ∉ acc.map Prod.fst) →
    (gens.map Prod.fst).Nodup →
    gens.foldl (fun payload fg =>
      let value := evalGen fg.2 req
      if value.truthy then dictSet payload fg.1 value else payload) acc =
      acc ++ gens.filterMap (evalKeep req) := by
  intro gens
  induction gens with
  | nil => intro acc _ _; simp
  | cons fg tl ih =>
    intro acc hdisj hnodup
    obtain ⟨k, g⟩ := fg
    simp only [List.map_cons, List.nodup_cons] at hnodup
    rw [List.foldl_cons]
    by_cases ht : (evalGen g req).truthy
    · have hk : k ∉ acc.map Prod.fst :=
        hdisj k (by simp)
      have hstep : (let value := evalGen g req;
          if value.truthy then dictSet acc k value else acc) =
          acc ++ [(k, evalGen g req)] := by
        simp only [ht, if_true]
        exact dictSet_eq_append _ hk
      rw [hstep, ih (acc ++ [(k, evalGen g req)])
        (by
          intro k2 hk2
          rw [List.map_append, List.mem_append]
          rintro (h2 | h2)
          · exact hdisj k2 (List.mem_cons_of_mem _ hk2) h2
          · simp only [List.map_cons, List.map_nil, List.mem_singleton] at h2
            rw [h2] at hk2
            exact hnodup.1 hk2)
        hnodup.2]
      rw [List.filterMap_cons]
      rw [show evalKeep req (k, g) = some (k, evalGen g req) from by
        simp [evalKeep, ht]]
      simp
    · have hstep : (let value := evalGen g req;
          if value.truthy then dictSet acc k value else acc) = acc := by
        simp only [Bool.not_eq_true] at ht
        simp [ht]
      rw [hstep, ih acc
        (fun k2 hk2 => hdisj k2 (List.mem_cons_of_mem _ hk2)) hnodup.2]
      rw [List.filterMap_cons]
      rw [show evalKeep req (k, g) = Option.none from by
        simp only [Bool.not_eq_true] at ht
        simp [evalKeep, ht]]

theorem generate_eq_filterMap {gens : List (String × Gen)} (req : Request)
    (hn : (gens.map Prod.fst).Nodup) :
    JWTAuth_generate gens req = gens.filterMap (evalKeep req) := by
  unfold JWTAuth_generate
  rw [generate_foldl_eq req gens [] (by simp) hn]
  simp

theorem filterMap_evalKeep_keys_sublist (req : Request) :
    ∀ gens : List (String × Gen),
    ((gens.filterMap (evalKeep req)).map Prod.fst).Sublist
      (gens.map Prod.fst) := by
  intro gens
  induction gens with
  | nil => simp
  | cons fg tl ih =>
    rw [List.filterMap_cons]
    cases h : evalKeep req fg with
    | none =>
      rw [List.map_cons]
      exact ih.cons _
    | some p =>
      have hp : p.1 = fg.1 := by
        unfold evalKeep at h
        by_cases ht : (evalGen fg.2 req).truthy
        · simp only [ht, if_true] at h
          cases h
          rfl
        · simp only [Bool.not_eq_true] at ht
          simp [ht] at h
      rw [List.map_cons, List.map_cons, hp]
      exact ih.cons₂ _

/-- C2: the evaluated claim set contains exactly the claims whose generator
(called on the request when callable, used as a constant otherwise) yields
a truthy value; with the standard body generator registered, the body claim
is present exactly on POST and PUT, carrying the sha256 hex digest of the
raw body and the tag sha256, and is absent on GET. -/
theorem c2_generate_truthy_claims :
    ∀ (sha256hex : List Nat → String) (gens : List (String × Gen))
      (req : Request), (gens.map Prod.fst).Nodup →
    (∀ (f : String) (v : PyVal),
      (JWTAuth_generate gens req).lookup f = some v ↔
        ∃ g, (f, g) ∈ gens ∧ evalGen g req = v ∧ v.truthy = true) ∧
    (("body", Gen.fn (payload_body sha256hex)) ∈ gens →
      (JWTAuth_generate gens req).lookup "body" =
        (if req.method = "POST" ∨ req.method = "PUT" then
          some (PyVal.dict [("hash", PyVal.str (sha256hex req.body)),
            ("alg", PyVal.str "sha256")])
        else Option.none)) := by
  intro sha256hex gens req hn
  have hgen := generate_eq_filterMap req hn
  have hkeys : ((JWTAuth_generate gens req).map Prod.fst).Nodup := by
    rw [hgen]
    exact (filterMap_evalKeep_keys_sublist req gens).nodup hn
  have hmain : ∀ (f : String) (v : PyVal),
      (JWTAuth_generate gens req).lookup f = some v ↔
        ∃ g, (f, g) ∈ gens ∧ evalGen g req = v ∧ v.truthy = true := by
    intro f v
    rw [lookup_eq_some_iff_mem hkeys, hgen, List.mem_filterMap]
    constructor
    · rintro ⟨fg, hfg, hkeep⟩
      obtain ⟨k, g⟩ := fg
      unfold evalKeep at hkeep
      by_cases ht : (evalGen g req).truthy
      · simp only [ht, if_true, Option.some.injEq] at hkeep
        injection hkeep with hk hv
        exact ⟨g, hk ▸ hfg, hv, hv ▸ ht⟩
      · simp only [Bool.not_eq_true] at ht
        simp [ht] at hkeep
    · rintro ⟨g, hg, hv, ht⟩
      refine ⟨(f, g), hg, ?_⟩
      unfold evalKeep
      simp only [hv, ht, if_true]
  refine ⟨hmain, ?_⟩
  intro hbody
  by_cases hm : req.method = "POST" ∨ req.method = "PUT"
  · rw [if_pos hm]
    apply (hmain "body" _).mpr
    refine ⟨Gen.fn (payload_body sha256hex), hbody, ?_, ?_⟩
    · show payload_body sha256hex req = _
      rw [payload_body, if_pos hm]
    · rfl
  · rw [if_neg hm]
    cases hl : (JWTAuth_generate gens req).lookup "body" with
    | none => rfl
    | some v =>
      exfalso
      obtain ⟨g, hg, hv, ht⟩ := (hmain "body" v).mp hl
      have hgeq : g = Gen.fn (payload_body sha256hex) :=
        mem_unique_of_nodup_keys hn hg hbody
      rw [hgeq] at hv
      have : payload_body sha256hex req = PyVal.none := by
        rw [payload_body, if_neg hm]
      rw [show evalGen (Gen.fn (payload_body sha256hex)) req =
        payload_body sha256hex req from rfl, this] at hv
      rw [← hv] at ht
      cases ht

theorem c2_generate_truthy_claims_witness :
    (JWTAuth_generate
      [("body", Gen.fn (payload_body (fun _ => "H")))]
      ⟨"POST", "http://example.com/x", [97], []⟩).lookup "body" =
      some (PyVal.dict [("hash", PyVal.str "H"),
        ("alg", PyVal.str "sha256")]) ∧
    (JWTAuth_generate
      [("body", Gen.fn (payload_body (fun _ => "H")))]
      ⟨"GET", "http://example.com/x", [], []⟩).lookup "body" =
      Option.none := by
  constructor
  · have h := (c2_generate_truthy_claims (fun _ => "H")
      [("body", Gen.fn (payload_body (fun _ => "H")))]
      ⟨"POST", "http://example.com/x", [97], []⟩ (by decide)).2
      (List.mem_cons_self _ _)
    simpa using h
  · have h := (c2_generate_truthy_claims (fun _ => "H")
      [("body", Gen.fn (payload_body (fun _ => "H")))]
      ⟨"GET", "http://example.com/x", [], []⟩ (by decide)).2
      (List.mem_cons_self _ _)
    simpa using h

/-!
Claim C3: signing sets exactly the Authorization header, in the documented
format, and leaves every other field of the request unchanged.
-/

/-- C3: JWTAuth.__call__ sets the Authorization header to the string JWT
token=... whose quoted token is the dot-join of the encoded fixed header,
the encoded evaluated claim set and the signature over them with the shared
secret; the method, URL, body and every other header of the request are
unchanged. -/
theorem c3_call_sets_only_authorization :
    ∀ (encode : PyVal → String) (sign : PyVal → PyVal → String → String)
      (secret alg : String) (gens : List (String × Gen)) (req : Request),
    (JWTAuth_call encode sign secret alg gens req).method = req.method ∧
    (JWTAuth_call encode sign secret alg gens req).url = req.url ∧
    (JWTAuth_call encode sign secret alg gens req).body = req.body ∧
    (JWTAuth_call encode sign secret alg gens req).headers.lookup
        "Authorization" =
      some ("JWT token=\"" ++ (encode (jwtHeader alg) ++ "."
        ++ (encode (PyVal.dict (JWTAuth_generate gens req)) ++ "."
        ++ sign (jwtHeader alg) (PyVal.dict (JWTAuth_generate gens req))
            secret)) ++ "\"") ∧
    (∀ k : String, k ≠ "Authorization" →
      (JWTAuth_call encode sign secret alg gens req).headers.lookup k =
        req.headers.lookup k) := by
  intro encode sign secret alg gens req
  refine ⟨rfl, rfl, rfl, ?_, ?_⟩
  · show (dictSet req.headers "Authorization" _).lookup "Authorization" = _
    rw [lookup_dictSet_self]
    rfl
  · intro k hk
    show (dictSet req.headers "Authorization" _).lookup k = _
    rw [lookup_dictSet_ne _ _ hk]

theorem c3_call_sets_only_authorization_witness :
    (JWTAuth_call (fun _ => "E") (fun _ _ _ => "S") "sec" "HS256" []
      ⟨"GET", "http://example.com/", [], [("Accept", "json")]⟩).headers.lookup
        "Accept" = some "json" ∧
    (JWTAuth_call (fun _ => "E") (fun _ _ _ => "S") "sec" "HS256" []
      ⟨"GET", "http://example.com/", [], [("Accept", "json")]⟩).headers.lookup
        "Authorization" = some "JWT token=\"E.E.S\"" := by
  constructor
  · exact (c3_call_sets_only_authorization (fun _ => "E") (fun _ _ _ => "S")
      "sec" "HS256" [] ⟨"GET", "http://example.com/", [], [("Accept", "json")]⟩
      ).2.2.2.2 "Accept" (by decide)
  · have h := (c3_call_sets_only_authorization (fun _ => "E")
      (fun _ _ _ => "S") "sec" "HS256" []
      ⟨"GET", "http://example.com/", [], [("Accept", "json")]⟩).2.2.2.1
    simpa using h

/-!
Claim C4: status checks of list, get and create, and the error classifier.
-/

/-- C4: with a successfully decoded body, list and get fail exactly when
the status is not 200 and create exactly when it is not 201, returning the
decoded body otherwise; a failure goes through raise_error, which produces
the typed exception for a recognized code with a message present and the
generic APIError naming the method, URL and raw body in every other case,
never an uncaught lookup error. -/
theorem c4_error_classification :
    ∀ (status : Nat) (obj : PyVal) (req : RequestInfo),
    ((∃ e, listResponse status (some obj) req = Except.error e) ↔
      status ≠ 200) ∧
    (status = 200 → listResponse status (some obj) req = Except.ok obj) ∧
    ((∃ e, getResponse status (some obj) req = Except.error e) ↔
      status ≠ 200) ∧
    (status = 200 → getResponse status (some obj) req = Except.ok obj) ∧
    ((∃ e, createResponse status (some obj) req = Except.error e) ↔
      status ≠ 201) ∧
    (status = 201 → createResponse status (some obj) req = Except.ok obj) ∧
    (status ≠ 201 → createResponse status (some obj) req =
      Except.error (raise_error obj req)) ∧
    (∀ (c : String) (m : PyVal),
      getItem obj "code" = Except.ok (PyVal.str c) →
      getItem obj "message" = Except.ok m →
      (c = "ResourceNotFound" →
        raise_error obj req = BKError.resourceNotFound obj req) ∧
      (c = "ResourceConflict" →
        raise_error obj req = BKError.resourceConflict obj req) ∧
      (c = "ValidationError" →
        raise_error obj req = BKError.validationError obj req)) ∧
    ((¬ ∃ (c : String) (m : PyVal),
        getItem obj "code" = Except.ok (PyVal.str c) ∧
        (c = "ResourceNotFound" ∨ c = "ResourceConflict" ∨
          c = "ValidationError") ∧
        getItem obj "message" = Except.ok m) →
      raise_error obj req = BKError.apiProblem req.method req.url obj) := by
  intro status obj req
  have hresp : ∀ expected : Nat,
      ((∃ e, handleResponse expected status (some obj) req =
        Except.error e) ↔ status ≠ expected) ∧
      (status = expected →
        handleResponse expected status (some obj) req = Except.ok obj) := by
    intro expected
    rw [show handleResponse expected status (some obj) req =
      (if status ≠ expected then Except.error (raise_error obj req)
       else Except.ok obj) from rfl]
    by_cases h : status = expected
    · rw [if_neg (not_not_intro h)]
      constructor
      · constructor
        · rintro ⟨e, he⟩
          cases he
        · intro hne
          exact absurd h hne
      · intro _
        rfl
    · rw [if_pos h]
      constructor
      · exact iff_of_true ⟨raise_error obj req, rfl⟩ h
      · intro heq
        exact absurd heq h
  refine ⟨(hresp 200).1, (hresp 200).2, (hresp 200).1, (hresp 200).2,
    (hresp 201).1, (hresp 201).2, ?_, ?_, ?_⟩
  · intro hne
    rw [show createResponse status (some obj) req =
      (if status ≠ 201 then Except.error (raise_error obj req)
       else Except.ok obj) from rfl]
    rw [if_pos hne]
  · intro c m hc hm
    unfold raise_error
    rw [hc, hm]
    refine ⟨?_, ?_, ?_⟩ <;> intro hceq <;> subst hceq <;> rfl
  · intro hno
    unfold raise_error
    cases hc : getItem obj "code" with
    | error e => rfl
    | ok v =>
      cases v with
      | str c =>
        cases hm : getItem obj "message" with
        | error e => rfl
        | ok m =>
          have hcode : ¬ (c = "ResourceNotFound" ∨ c = "ResourceConflict" ∨
              c = "ValidationError") := by
            intro hor
            exact hno ⟨c, m, hc, hor, hm⟩
          push_neg at hcode
          have htab : errorsTable c obj req = Option.none := by
            unfold errorsTable
            rw [if_neg hcode.1, if_neg hcode.2.1, if_neg hcode.2.2]
          show (match errorsTable c obj req with
            | some e => e
            | Option.none => BKError.apiProblem req.method req.url obj) =
            BKError.apiProblem req.method req.url obj
          rw [htab]
      | none => rfl
      | bool b => rfl
      | int n => rfl
      | dict d => rfl
      | list xs => rfl

theorem c4_error_classification_witness :
    createResponse 409 (some (PyVal.dict
      [("code", PyVal.str "ResourceConflict"),
       ("message", PyVal.str "exists")])) ⟨"POST", "http://e/systems"⟩ =
      Except.error (BKError.resourceConflict
        (PyVal.dict [("code", PyVal.str "ResourceConflict"),
          ("message", PyVal.str "exists")]) ⟨"POST", "http://e/systems"⟩) ∧
    createResponse 201 (some (PyVal.dict [])) ⟨"POST", "http://e/systems"⟩ =
      Except.ok (PyVal.dict []) ∧
    raise_error (PyVal.dict [("nocode", PyVal.str "x")]) ⟨"GET", "u"⟩ =
      BKError.apiProblem "GET" "u" (PyVal.dict [("nocode", PyVal.str "x")]) := by
  refine ⟨?_, ?_, ?_⟩
  · have h1 := (c4_error_classification 409
      (PyVal.dict [("code", PyVal.str "ResourceConflict"),
        ("message", PyVal.str "exists")]) ⟨"POST", "http://e/systems"⟩).2.2.2.2.2.2.1
      (by decide)
    have h2 := ((c4_error_classification 409
      (PyVal.dict [("code", PyVal.str "ResourceConflict"),
        ("message", PyVal.str "exists")]) ⟨"POST", "http://e/systems"⟩).2.2.2.2.2.2.2.1
      "ResourceConflict" (PyVal.str "exists") rfl rfl).2.1 rfl
    rw [h1, h2]
  · exact (c4_error_classification 201 (PyVal.dict [])
      ⟨"POST", "http://e/systems"⟩).2.2.2.2.2.1 rfl
  · apply (c4_error_classification 0 (PyVal.dict [("nocode", PyVal.str "x")])
      ⟨"GET", "u"⟩).2.2.2.2.2.2.2.2
    rintro ⟨c, m, hc, hor, hm⟩
    cases hc

/-!
Claim C8: ping.
-/

/-- C8: ping returns True exactly when the round trip produced a response
with status exactly 200 whose decoded body has an app field equal to
BadgeKit API; a connection error is converted to False rather than
propagated. -/
theorem c8_ping :
    (∀ out : HttpOutcome, ping out = Except.ok true ↔
      ∃ obj, out = HttpOutcome.response 200 (some obj) ∧
        getItem obj "app" = Except.ok (PyVal.str "BadgeKit API")) ∧
    ping HttpOutcome.connectionError = Except.ok false := by
  constructor
  · intro out
    constructor
    · intro h
      cases out with
      | connectionError => cases h
      | response status decoded =>
        cases decoded with
        | none => cases h
        | some obj =>
          refine ⟨obj, ?_, ?_⟩
          · rw [show ping (HttpOutcome.response status (some obj)) =
              (if status = 200 then
                (match getItem obj "app" with
                 | Except.ok v => Except.ok (pyEqStr v "BadgeKit API")
                 | Except.error e => Except.error e)
               else Except.ok false) from rfl] at h
            by_cases hs : status = 200
            · rw [hs]
            · rw [if_neg hs] at h
              cases h
          · rw [show ping (HttpOutcome.response status (some obj)) =
              (if status = 200 then
                (match getItem obj "app" with
                 | Except.ok v => Except.ok (pyEqStr v "BadgeKit API")
                 | Except.error e => Except.error e)
               else Except.ok false) from rfl] at h
            by_cases hs : status = 200
            · rw [if_pos hs] at h
              cases hg : getItem obj "app" with
              | error e =>
                rw [hg] at h
                cases h
              | ok v =>
                rw [hg] at h
                cases v with
                | str s =>
                  have hb : (s == "BadgeKit API") = true := by
                    have := congrArg (fun x =>
                      match x with
                      | Except.ok b => b
                      | Except.error _ => false) h
                    simpa [pyEqStr] using this
                  rw [beq_iff_eq] at hb
                  rw [hb]
                | none => cases h
                | bool b => cases h
                | int n => cases h
                | dict d => cases h
                | list xs => cases h
            · rw [if_neg hs] at h
              cases h
    · rintro ⟨obj, rfl, happ⟩
      rw [show ping (HttpOutcome.response 200 (some obj)) =
        (match getItem obj "app" with
         | Except.ok v => Except.ok (pyEqStr v "BadgeKit API")
         | Except.error e => Except.error e) from rfl]
      rw [happ]
      rfl
  · rfl

theorem c8_ping_witness :
    ping (HttpOutcome.response 200
      (some (PyVal.dict [("app", PyVal.str "BadgeKit API")]))) =
      Except.ok true :=
  (c8_ping.1 (HttpOutcome.response 200
    (some (PyVal.dict [("app", PyVal.str "BadgeKit API")])))).mpr
    ⟨PyVal.dict [("app", PyVal.str "BadgeKit API")], rfl, rfl⟩

/-!
Claim C9: require_server_version.
-/

/-- C9: require_server_version signals a failure exactly when the parsed
server version is strictly older than the parsed required version under the
StrictVersion ordering; in particular a server at 0.2.9 fails a requirement
of 0.3.0 and passes requirements of 0.2 and 0.2.2. -/
theorem c9_require_server_version :
    (∀ (url server required : String) (sv rv : SVer),
      parseSV server = some sv → parseSV required = some rv →
      (raisesError (require_server_version url server required) = true ↔
        svLt sv rv = true)) ∧
    (∀ url : String,
      raisesError (require_server_version url "0.2.9" "0.3.0") = true ∧
      raisesError (require_server_version url "0.2.9" "0.2") = false ∧
      raisesError (require_server_version url "0.2.9" "0.2.2") = false) := by
  constructor
  · intro url server required sv rv hs hr
    have hred : require_server_version url server required =
        (if svLt sv rv = true then
          Except.error (PyExc.valueError
            ("Version " ++ required ++ " or greater of BadgeKit-API server "
              ++ "required, but " ++ url ++ " is only version "
              ++ server ++ "."))
        else Except.ok ()) := by
      unfold require_server_version
      rw [hs, hr]
    rw [hred]
    by_cases h : svLt sv rv = true
    · rw [if_pos h]
      simp [raisesError, h]
    · rw [if_neg h]
      exact iff_of_false (by simp [raisesError]) h
  · intro url
    exact ⟨rfl, rfl, rfl⟩

theorem c9_require_server_version_witness :
    raisesError (require_server_version "http://example.com"
      "0.2.9" "0.3.0") = true :=
  (c9_require_server_version.1 "http://example.com" "0.2.9" "0.3.0"
    ⟨0, 2, 9, Option.none⟩ ⟨0, 3, 0, Option.none⟩ rfl rfl).mpr rfl
